import Mathlib

/-!
Verification of the Gaimin staking client protocol layer
(`pfp/client`): byte-level record codecs (`src/parse.ts`),
PDA derivations (`src/pda.ts`), instruction builders
(`src/instruction.ts`), the composite claim transaction
(`src/transaction.ts`), the chunked concurrent claim driver,
and the legacy client (`client.ts`).

Byte buffers are `List Nat` (each element one byte); strings are
their UTF-8 byte lists; public keys are 32-byte lists.  Node's
`Buffer` readers throw `RangeError` on out-of-bounds reads, which we
model as `Option` (a `none` is the thrown `LayoutError`).
-/

namespace Gaimin

/-- Little-endian value of a byte list: `leNat [b0, b1, ...] = b0 + 256*b1 + ...`. -/
def leNat : List Nat → Nat
  | [] => 0
  | b :: bs => b + 256 * leNat bs

/-- The `n` little-endian bytes of `x` (mod `256^n`). -/
def leBytes : Nat → Nat → List Nat
  | 0, _ => []
  | n + 1, x => x % 256 :: leBytes n (x / 256)

/-- `n` bytes of `data` starting at `off`; `none` when the buffer is too
short (Node `Buffer.read*` throws `ERR_OUT_OF_RANGE`). -/
def bytesAt (data : List Nat) (off n : Nat) : Option (List Nat) :=
  if off + n ≤ data.length then some ((data.drop off).take n) else none

/-- JS `Buffer.slice(s, e)` for the in-range uses of the client sources:
no bounds check, silently truncates. -/
def sliceB (data : List Nat) (s e : Nat) : List Nat :=
  (data.take e).drop s

/-- Unsigned little-endian read of `n` bytes at `off`. -/
def readUIntLE (data : List Nat) (off n : Nat) : Option Nat :=
  (bytesAt data off n).map leNat

/-- Two's-complement reinterpretation of an unsigned value, given half
the width's modulus (e.g. `half = 2^31` for 32 bits). -/
def sintOf (half u : Nat) : Int :=
  if u < half then (u : Int) else (u : Int) - 2 * half

/-- Node `Buffer.readInt8`: signed byte. -/
def readInt8 (data : List Nat) (off : Nat) : Option Int :=
  (readUIntLE data off 1).map (sintOf 128)

/-- Node `Buffer.readInt32LE`: signed 32-bit little-endian. -/
def readInt32LE (data : List Nat) (off : Nat) : Option Int :=
  (readUIntLE data off 4).map (sintOf (2 ^ 31))

/-- Node `Buffer.readBigInt64LE`: signed 64-bit little-endian. -/
def readBigInt64LE (data : List Nat) (off : Nat) : Option Int :=
  (readUIntLE data off 8).map (sintOf (2 ^ 63))

/-- Node `Buffer.writeInt8`: throws (`none`) outside `[-128, 128)`,
else the two's-complement byte. -/
def writeInt8 (v : Int) : Option (List Nat) :=
  if -128 ≤ v ∧ v < 128 then some [(v % 256).toNat] else none

/-- Node `Buffer.writeInt32LE`: throws (`none`) outside `[-2^31, 2^31)`,
else the 4 two's-complement little-endian bytes. -/
def writeInt32LE (v : Int) : Option (List Nat) :=
  if -(2 ^ 31) ≤ v ∧ v < 2 ^ 31 then some (leBytes 4 (v % 2 ^ 32).toNat) else none

/-- `new PublicKey(bs58.encode(bytes))`: validates the 32-byte length
(base58 encode/decode are mutually inverse, so we keep the bytes). -/
def mkPublicKey (bs : List Nat) : Option (List Nat) :=
  if bs.length = 32 then some bs else none

/-- The representable range of a signed 32-bit field. -/
def inI32 (v : Int) : Prop := -(2 ^ 31) ≤ v ∧ v < 2 ^ 31

instance (v : Int) : Decidable (inI32 v) := by
  unfold inI32
  infer_instance

/-- UTF-8 bytes of an ASCII string literal (`Buffer.from(s)` / `TextEncoder`). -/
def strBytes (s : String) : List Nat :=
  s.data.map Char.toNat

/-! ### Program id constants (`src/pid.ts`), as base58-decoded 32-byte lists -/

/-- `TokenkegQfeZyiNwAJbNbGKPFXCWuBvf9Ss623VQ5DA` (SPL token program). -/
def TOKEN : List Nat :=
  [6, 221, 246, 225, 215, 101, 161, 147, 217, 203, 225, 70, 206, 235, 121, 172,
   28, 180, 133, 237, 95, 91, 55, 145, 58, 140, 245, 133, 126, 255, 0, 169]

/-- `ATokenGPvbdGVxr1b2hvZbsiqW5xWH25efTNsLJA8knL` (associated token account program). -/
def SPL_ASSOCIATED_TOKEN_ACCOUNT : List Nat :=
  [140, 151, 37, 143, 78, 36, 137, 241, 187, 61, 16, 41, 20, 142, 13, 131,
   11, 90, 19, 153, 218, 255, 16, 132, 4, 142, 123, 216, 219, 233, 248, 89]

/-- `metaqbxxUerdq28cj1RbAWkYQm3ybzjb6a8bt518x1s` (Metaplex token metadata program). -/
def MPL_TOKEN_METADATA : List Nat :=
  [11, 112, 101, 177, 227, 209, 124, 69, 56, 157, 82, 127, 107, 4, 195, 205,
   88, 184, 108, 115, 26, 160, 253, 181, 73, 182, 209, 188, 3, 248, 41, 70]

/-- `GMRXrgb2TF6ejGt3nJrUAkwVoKUrnVK5LZ6duRE8x47g` (the staking program). -/
def GAIMIN_PFP : List Nat :=
  [228, 26, 168, 148, 15, 123, 106, 54, 71, 60, 192, 131, 76, 206, 97, 164,
   199, 62, 150, 94, 190, 103, 169, 61, 27, 253, 50, 71, 121, 50, 18, 23]

/-- `SystemProgram.programId` (`11111111111111111111111111111111`): 32 zero bytes. -/
def systemProgramId : List Nat := List.replicate 32 0

/-! ### Record types (`src/types.ts`) -/

structure ConfigRecord where
  authority : List Nat
  creator : List Nat
  claimable_from : Int
  accumulated_reward : Int
  initial_reward : Int
  accumulation_duration : Int
  generation_duration : Int
  deriving DecidableEq, Repr

structure ConfigArgs where
  claimable_from : Int
  accumulated_reward : Int
  initial_reward : Int
  total_accumulation_period : Int
  generation_duration : Int
  deriving DecidableEq, Repr

structure NftRecord where
  claimed_amount : Int
  total_amount : Int
  last_claimed_at : Int
  deriving DecidableEq, Repr

structure ClaimRecord where
  generation : Int
  amount : Int
  owner : List Nat
  bnb_chain_wallet_address : List Nat
  deriving DecidableEq, Repr

structure TokenRecord where
  state : Int
  delegate : Option (List Nat)
  delegateRole : Option Int
  deriving DecidableEq, Repr

/-! ### Enum values (`src/types.ts`) -/

/-- `TokenRecordState` enum: Unlocked = 0, Locked = 1, Listed = 2. -/
def TokenRecordState.Locked : Int := 1

/-- `DelegateRole` enum: Sale = 0, Transfer = 1, Utility = 2, Staking = 3,
Standard = 4, LockedTransfer = 5, Migration = 255. -/
def DelegateRole.Staking : Int := 3

/-! ### Record decoders (`src/parse.ts`) -/

/-- `parseConfig` (primary client, `src/parse.ts`): two 32-byte addresses
then five signed 32-bit little-endian integers at 64, 68, 72, 76, 80. -/
def parseConfigData (data : List Nat) : Option ConfigRecord := do
  let authority ← mkPublicKey (sliceB data 0 32)
  let creator ← mkPublicKey (sliceB data 32 64)
  let claimable_from ← readInt32LE data 64
  let accumulated_reward ← readInt32LE data 68
  let initial_reward ← readInt32LE data 72
  let accumulation_duration ← readInt32LE data 76
  let generation_duration ← readInt32LE data 80
  pure ⟨authority, creator, claimable_from, accumulated_reward, initial_reward,
        accumulation_duration, generation_duration⟩

/-- `parseNft` (`src/parse.ts`). -/
def parseNftData (data : List Nat) : Option NftRecord := do
  let claimed_amount ← readInt32LE data 0
  let total_amount ← readInt32LE data 4
  let last_claimed_at ← readInt32LE data 8
  pure ⟨claimed_amount, total_amount, last_claimed_at⟩

/-- `parseClaim` (`src/parse.ts`): the trailing wallet string is
`'0x' + data.toString('utf8', 40)` (`0x` is ASCII `[48, 120]`). -/
def parseClaimData (data : List Nat) : Option ClaimRecord := do
  let generation ← readInt32LE data 0
  let amount ← readInt32LE data 4
  let owner ← mkPublicKey (sliceB data 8 40)
  pure ⟨generation, amount, owner, [48, 120] ++ data.drop 40⟩

/-- The tail of `parseTokenRecord` after the optional-field skip:
reads the delegate-presence byte at `offset`, the delegate bytes at
`offset+1 .. offset+32`, and the role at `offset + 34`. -/
def parseTokenRecordFrom (data : List Nat) (offset : Nat) (state : Int) :
    Option TokenRecord := do
  let present ← readInt8 data offset
  if present = 0 then
    pure ⟨state, none, none⟩
  else
    let role ← readInt8 data (offset + 34)
    pure ⟨state, some (sliceB data (offset + 1) (offset + 33)), some role⟩

/-- `parseTokenRecord` (`src/parse.ts`): state at offset 2; the 1-byte
discriminant at offset 3 selects a skip of 1 (zero) or 9 (non-zero)
bytes before the delegate-presence byte. -/
def parseTokenRecordData (data : List Nat) : Option TokenRecord := do
  let state ← readInt8 data 2
  let disc ← readInt8 data 3
  parseTokenRecordFrom data (if disc = 0 then 3 + 1 else 3 + 9) state

/-! ### Legacy client decoder (`client.ts`) -/

/-- Legacy `parseConfig` record (`client.ts`): `total_reward` is read by
`readDoubleLE(40)` and `initial_reward_frac` by `readFloatLE(48)`; we
keep their raw little-endian bit patterns (the IEEE-754 value
interpretation is the external runtime's). -/
structure LegacyConfigRecord where
  authority : List Nat
  claimable_from : Int
  total_reward_bits : Nat
  initial_reward_frac_bits : Nat
  reward_period_sec : Int
  deriving DecidableEq, Repr

/-- Legacy `parseConfig` (`client.ts`): authority = `bs58.encode(slice(0,32))`
(no length validation), `claimable_from` an 8-byte signed integer at 32,
a double at 40, a float at 48, and a 4-byte signed integer at 52. -/
def parseConfigLegacyData (data : List Nat) : Option LegacyConfigRecord := do
  let claimable_from ← readBigInt64LE data 32
  let total_reward_bits ← readUIntLE data 40 8
  let initial_reward_frac_bits ← readUIntLE data 48 4
  let reward_period_sec ← readInt32LE data 52
  pure ⟨sliceB data 0 32, claimable_from, total_reward_bits,
        initial_reward_frac_bits, reward_period_sec⟩

/-! ### PDA derivations (`src/pda.ts`)

`PublicKey.findProgramAddressSync` lives in the external
`@solana/web3.js` library (SHA-256 plus an off-curve check), so the
builders are parameterized by it: `fpa seeds programId = (address, bump)`.
What the repository fixes — and what we verify — is the exact ordered
seed list and program id each named derivation passes to it. -/

/-- The type of the external `PublicKey.findProgramAddressSync`. -/
abbrev Fpa := List (List Nat) → List Nat → List Nat × Nat

def findMetadataAccountPda (fpa : Fpa) (mint : List Nat) : List Nat × Nat :=
  fpa [strBytes "metadata", MPL_TOKEN_METADATA, mint] MPL_TOKEN_METADATA

def findMasterEditionAccountPda (fpa : Fpa) (mint : List Nat) : List Nat × Nat :=
  fpa [strBytes "metadata", MPL_TOKEN_METADATA, mint, strBytes "edition"] MPL_TOKEN_METADATA

def findTokenAccountPda (fpa : Fpa) (mint wallet : List Nat) : List Nat × Nat :=
  fpa [wallet, TOKEN, mint] SPL_ASSOCIATED_TOKEN_ACCOUNT

def findTokenRecordPda (fpa : Fpa) (mint token : List Nat) : List Nat × Nat :=
  fpa [strBytes "metadata", MPL_TOKEN_METADATA, mint, strBytes "token_record", token]
    MPL_TOKEN_METADATA

def findConfigPda (fpa : Fpa) : List Nat × Nat :=
  fpa [strBytes "config"] GAIMIN_PFP

def findNftPda (fpa : Fpa) (mint : List Nat) : List Nat × Nat :=
  fpa [strBytes "nft", mint] GAIMIN_PFP

def findClaimPda (fpa : Fpa) (wallet seed : List Nat) : List Nat × Nat :=
  fpa [strBytes "claim", wallet, seed] GAIMIN_PFP

/-- Modelled from the spec: the bump-search PDA derivation algorithm of
§4.1 — implemented by the external `@solana/web3.js`
`findProgramAddressSync`, not by code in this repository.  `hash` is the
chain's address-hash function and `isOnCurve` the curve-point test;
bumps are tried from 255 down to 0 and exhaustion is the fatal
`DerivationError` (`none`). -/
def findProgramAddressGo (hash : List (List Nat) → List Nat)
    (isOnCurve : List Nat → Bool) (programId suffix : List Nat)
    (seeds : List (List Nat)) : Nat → Option (List Nat × Nat)
  | 0 => none
  | n + 1 =>
    let addr := hash (seeds ++ [[n]] ++ [programId] ++ [suffix])
    if isOnCurve addr then findProgramAddressGo hash isOnCurve programId suffix seeds n
    else some (addr, n)

/-- Modelled from the spec: `derive(programId, seeds)` (§4.1), trying all
256 bump values starting at 255. -/
def findProgramAddressSpec (hash : List (List Nat) → List Nat)
    (isOnCurve : List Nat → Bool) (programId suffix : List Nat)
    (seeds : List (List Nat)) : Option (List Nat × Nat) :=
  findProgramAddressGo hash isOnCurve programId suffix seeds 256

/-! ### Instruction builders (`src/instruction.ts`) -/

structure AccountMeta where
  pubkey : List Nat
  isSigner : Bool
  isWritable : Bool
  deriving DecidableEq, Repr

structure TransactionInstruction where
  data : List Nat
  keys : List AccountMeta
  programId : List Nat
  deriving DecidableEq, Repr

/-- The payload of `setConfigInstruction`: opcode 0 then the five config
integers as signed 32-bit little-endian at offsets 1, 5, 9, 13, 17. -/
def setConfigData (config : ConfigArgs) : Option (List Nat) := do
  let cf ← writeInt32LE config.claimable_from
  let ar ← writeInt32LE config.accumulated_reward
  let ir ← writeInt32LE config.initial_reward
  let tap ← writeInt32LE config.total_accumulation_period
  let gd ← writeInt32LE config.generation_duration
  pure (0 :: (cf ++ ar ++ ir ++ tap ++ gd))

/-- `setConfigInstruction` (`src/instruction.ts`). -/
def setConfigInstruction (fpa : Fpa) (signer creator : List Nat)
    (config : ConfigArgs) : Option TransactionInstruction := do
  let data ← setConfigData config
  pure ⟨data,
    [⟨signer, true, false⟩,
     ⟨creator, false, false⟩,
     ⟨(findConfigPda fpa).1, false, true⟩,
     ⟨systemProgramId, false, false⟩],
    GAIMIN_PFP⟩

/-- `registerNftInstruction` (`src/instruction.ts`): opcode 2. -/
def registerNftInstruction (fpa : Fpa) (signer mint : List Nat) :
    TransactionInstruction :=
  ⟨[2],
   [⟨signer, true, false⟩,
    ⟨mint, false, false⟩,
    ⟨(findMetadataAccountPda fpa mint).1, false, false⟩,
    ⟨(findMasterEditionAccountPda fpa mint).1, false, false⟩,
    ⟨(findNftPda fpa mint).1, false, true⟩,
    ⟨(findConfigPda fpa).1, false, false⟩,
    ⟨systemProgramId, false, false⟩],
   GAIMIN_PFP⟩

/-- `createClaimInstruction` (`src/instruction.ts`): opcode 3, the claim
bump, the 32-byte claim seed, then the UTF-8 bytes of the wallet string
with its first two characters (`0x`) stripped; `Uint8Array.of` coerces
each element modulo 256. -/
def createClaimInstruction (fpa : Fpa) (wallet bnbWallet claim_seed : List Nat) :
    TransactionInstruction :=
  let cb := findClaimPda fpa wallet claim_seed
  ⟨3 :: cb.2 % 256 :: (claim_seed.map (· % 256) ++ (bnbWallet.drop 2).map (· % 256)),
   [⟨wallet, true, false⟩,
    ⟨cb.1, false, true⟩,
    ⟨(findConfigPda fpa).1, false, false⟩,
    ⟨systemProgramId, false, false⟩],
   GAIMIN_PFP⟩

/-- `claimInstruction` (`src/instruction.ts`): opcode 4 and three bumps. -/
def claimInstruction (fpa : Fpa) (wallet mint claim_seed : List Nat) :
    TransactionInstruction :=
  let nft := findNftPda fpa mint
  let token := findTokenAccountPda fpa mint wallet
  let config := (findConfigPda fpa).1
  let token_record := findTokenRecordPda fpa mint token.1
  let claim := (findClaimPda fpa wallet claim_seed).1
  ⟨[4, token.2 % 256, token_record.2 % 256, nft.2 % 256],
   [⟨wallet, true, false⟩,
    ⟨token.1, false, false⟩,
    ⟨token_record.1, false, false⟩,
    ⟨nft.1, false, true⟩,
    ⟨claim, false, true⟩,
    ⟨config, false, false⟩],
   GAIMIN_PFP⟩

/-! ### Composite claim transaction (`src/transaction.ts`) -/

/-- The instruction list assembled by `claimReward`
(`src/transaction.ts`): one create-claim, then one register per mint,
then one execute-claim per mint, all three groups receiving the single
`claim_seed = crypto.randomBytes(32)` generated once per call. -/
def claimRewardInstructions (fpa : Fpa) (userPayer : List Nat)
    (mints : List (List Nat)) (bnbWallet claim_seed : List Nat) :
    List TransactionInstruction :=
  createClaimInstruction fpa userPayer bnbWallet claim_seed
    :: (mints.map (registerNftInstruction fpa userPayer)
        ++ mints.map fun mint => claimInstruction fpa userPayer mint claim_seed)

/-! ### Chunked concurrent claim (demo driver, `concurrentClaim`) -/

/-- JS `Array.prototype.slice` index clamping. -/
def jsIndex (len : Nat) (i : Int) : Nat :=
  if i < 0 then (len + i).toNat else min i.toNat len

/-- JS `Array.prototype.slice(s, e)`. -/
def jsSlice {α : Type} (xs : List α) (s e : Int) : List α :=
  (xs.take (jsIndex xs.length e)).drop (jsIndex xs.length s)

/-- The loop of `concurrentClaim`:
`for (let i = 0; i < mints.length; i += chunkSize) push(mints.slice(i, i + chunkSize))`,
with explicit fuel; `none` means the fuel ran out with the loop guard
still true (the loop has not terminated yet). -/
def concurrentClaimGo {α : Type} (mints : List α) (chunkSize : Int) :
    Nat → Int → Option (List (List α))
  | 0, i => if i < (mints.length : Int) then none else some []
  | fuel + 1, i =>
    if i < (mints.length : Int) then
      (concurrentClaimGo mints chunkSize fuel (i + chunkSize)).map
        (jsSlice mints i (i + chunkSize) :: ·)
    else some []

/-- The chunk list built by `concurrentClaim` (each chunk is passed to
its own `claim` call); fuel `mints.length + 1` covers every terminating
run since a positive `chunkSize` advances `i` by at least one per
iteration. -/
def concurrentClaim {α : Type} (mints : List α) (chunkSize : Int) :
    Option (List (List α)) :=
  concurrentClaimGo mints chunkSize (mints.length + 1) 0

/-- Reference chunking: consecutive chunks of `c` with a possibly
shorter final chunk (intended for `1 ≤ c`). -/
def chunksOf {α : Type} (c : Nat) : List α → List (List α)
  | [] => []
  | x :: xs => (x :: xs.take (c - 1)) :: chunksOf c (xs.drop (c - 1))
termination_by xs => xs.length
decreasing_by
  simp only [List.length_drop, List.length_cons]
  omega

/-! ### Spec-modelled account encoders

The bytes of Config/NFT/Claim/TokenDelegation accounts are written by
the on-chain program (`gaimin_staking.so`, deployed by the repository's
deploy script but with no source under `src/`); the layouts below follow
the spec's §6 table. -/

/-- Modelled from the spec: the on-chain NftRecord account layout
(§6: `0:claimedAmount(4) 4:totalAmount(4) 8:lastClaimedAt(4)`,
little-endian). -/
def encodeNftRecord (r : NftRecord) : Option (List Nat) := do
  let ca ← writeInt32LE r.claimed_amount
  let ta ← writeInt32LE r.total_amount
  let lc ← writeInt32LE r.last_claimed_at
  pure (ca ++ ta ++ lc)

/-- Modelled from the spec: the on-chain ClaimRecord account layout
(§6: `0:generation(4) 4:amount(4) 8:owner(32) 40:wallet string`); the
wallet string is stored with its leading two `0x` characters stripped,
exactly as `createClaimInstruction` ships it
(`enc.encode(bnbWallet.slice(2))` spread through `Uint8Array.of`). -/
def encodeClaimRecord (r : ClaimRecord) : Option (List Nat) := do
  let gen ← writeInt32LE r.generation
  let amt ← writeInt32LE r.amount
  pure (gen ++ amt ++ r.owner ++ (r.bnb_chain_wallet_address.drop 2).map (· % 256))

/-- Modelled from the spec: the on-chain TokenDelegationRecord layout
(§6) — two leading key/version bytes, the state byte at offset 2, an
optional ruleset revision (discriminant 0 = one placeholder byte,
non-zero = discriminant plus an 8-byte revision), then the delegate
presence byte, the 32-byte delegate, a role-presence byte, and the role
byte.  A record with a delegate but no role (or vice versa) has no
encoding (`none`). -/
def encodeTokenRecord (b0 b1 : Nat) (rulesetRev : Option (List Nat))
    (r : TokenRecord) : Option (List Nat) := do
  let st ← writeInt8 r.state
  let rsr := match rulesetRev with
    | none => [0]
    | some rv => 1 :: rv
  let del ← match r.delegate, r.delegateRole with
    | none, none => some [0]
    | some d, some role => (writeInt8 role).map fun ro => 1 :: (d ++ 1 :: ro)
    | _, _ => none
  pure (b0 :: b1 :: (st ++ rsr ++ del))

/-! ### Byte-level lemmas -/

theorem leBytes_length (n x : Nat) : (leBytes n x).length = n := by
  induction n generalizing x with
  | zero => rfl
  | succ n ih => simp [leBytes, ih]

theorem leNat_leBytes {n x : Nat} (h : x < 256 ^ n) : leNat (leBytes n x) = x := by
  induction n generalizing x with
  | zero => simp at h; simp [h, leBytes, leNat]
  | succ n ih =>
    have hd : x / 256 < 256 ^ n := by
      rw [Nat.div_lt_iff_lt_mul (by norm_num)]
      calc x < 256 ^ (n + 1) := h
        _ = 256 ^ n * 256 := by ring
    simp [leBytes, leNat, ih hd, Nat.mod_add_div]

theorem bytesAt_spot (pre mid post : List Nat) :
    bytesAt (pre ++ mid ++ post) pre.length mid.length = some mid := by
  unfold bytesAt
  rw [if_pos (by simp), List.append_assoc, List.drop_left, List.take_left]

theorem readUIntLE_spot (pre mid post : List Nat) :
    readUIntLE (pre ++ mid ++ post) pre.length mid.length = some (leNat mid) := by
  simp only [readUIntLE, bytesAt_spot, Option.map_some']

theorem readUIntLE_spot' (pre post mid : List Nat) (n : Nat)
    (h : mid.length = n) :
    readUIntLE (pre ++ mid ++ post) pre.length n = some (leNat mid) := by
  subst h
  exact readUIntLE_spot pre mid post

theorem sliceB_spot (pre mid post : List Nat) :
    sliceB (pre ++ mid ++ post) pre.length (pre.length + mid.length) = mid := by
  unfold sliceB
  rw [show pre.length + mid.length = (pre ++ mid).length by simp,
    List.take_left, List.drop_left]

theorem drop_spot (pre post : List Nat) :
    (pre ++ post).drop pre.length = post :=
  List.drop_left pre post

theorem writeInt32LE_some {v : Int} (h1 : -(2 ^ 31) ≤ v) (h2 : v < 2 ^ 31) :
    writeInt32LE v = some (leBytes 4 (v % 2 ^ 32).toNat) := by
  unfold writeInt32LE
  rw [if_pos ⟨h1, h2⟩]

theorem readInt32LE_spot {v : Int} (h1 : -(2 ^ 31) ≤ v) (h2 : v < 2 ^ 31)
    (pre post : List Nat) :
    readInt32LE (pre ++ leBytes 4 (v % 2 ^ 32).toNat ++ post) pre.length = some v := by
  have hu : ((v % 2 ^ 32).toNat : Int) = v % 2 ^ 32 :=
    Int.toNat_of_nonneg (Int.emod_nonneg v (by norm_num))
  have hub : (v % 2 ^ 32).toNat < 2 ^ 32 := by
    have := Int.emod_lt_of_pos v (show (0 : Int) < 2 ^ 32 by norm_num)
    omega
  unfold readInt32LE
  rw [readUIntLE_spot' pre post _ _ (leBytes_length _ _), Option.map_some', leNat_leBytes hub]
  unfold sintOf
  congr 1
  split <;> omega

theorem readInt32LE_at (pre post : List Nat) {buf : List Nat} {off : Nat} {v : Int}
    (hbuf : buf = pre ++ leBytes 4 (v % 2 ^ 32).toNat ++ post)
    (hoff : off = pre.length) (h1 : -(2 ^ 31) ≤ v) (h2 : v < 2 ^ 31) :
    readInt32LE buf off = some v := by
  subst hbuf hoff
  exact readInt32LE_spot h1 h2 pre post

theorem writeInt8_some {v : Int} (h1 : -128 ≤ v) (h2 : v < 128) :
    writeInt8 v = some [(v % 256).toNat] := by
  unfold writeInt8
  rw [if_pos ⟨h1, h2⟩]

theorem readInt8_spot {v : Int} (h1 : -128 ≤ v) (h2 : v < 128)
    (pre post : List Nat) :
    readInt8 (pre ++ [(v % 256).toNat] ++ post) pre.length = some v := by
  have hu : (((v % 256).toNat : Int)) = v % 256 :=
    Int.toNat_of_nonneg (Int.emod_nonneg v (by norm_num))
  unfold readInt8
  rw [readUIntLE_spot' pre post [(v % 256).toNat] 1 rfl, Option.map_some']
  simp only [leNat]
  unfold sintOf
  congr 1
  split <;> omega

theorem readInt8_at (pre post : List Nat) {buf : List Nat} {off : Nat} {v : Int}
    (hbuf : buf = pre ++ [(v % 256).toNat] ++ post)
    (hoff : off = pre.length) (h1 : -128 ≤ v) (h2 : v < 128) :
    readInt8 buf off = some v := by
  subst hbuf hoff
  exact readInt8_spot h1 h2 pre post

theorem mkPublicKey_of_length {bs : List Nat} (h : bs.length = 32) :
    mkPublicKey bs = some bs := by
  unfold mkPublicKey
  rw [if_pos h]

/-! ### Round trips -/

theorem config_roundtrip (auth creator : List Nat) (args : ConfigArgs)
    (ha : auth.length = 32) (hc : creator.length = 32)
    (h1 : inI32 args.claimable_from) (h2 : inI32 args.accumulated_reward)
    (h3 : inI32 args.initial_reward) (h4 : inI32 args.total_accumulation_period)
    (h5 : inI32 args.generation_duration) :
    ∃ payload, setConfigData args = some payload ∧
      parseConfigData (auth ++ creator ++ payload.drop 1) =
        some ⟨auth, creator, args.claimable_from, args.accumulated_reward,
              args.initial_reward, args.total_accumulation_period,
              args.generation_duration⟩ := by
  have hcf := writeInt32LE_some h1.1 h1.2
  have har := writeInt32LE_some h2.1 h2.2
  have hir := writeInt32LE_some h3.1 h3.2
  have htap := writeInt32LE_some h4.1 h4.2
  have hgd := writeInt32LE_some h5.1 h5.2
  set cf := leBytes 4 (args.claimable_from % 2 ^ 32).toNat with hcfd
  set ar := leBytes 4 (args.accumulated_reward % 2 ^ 32).toNat with hard
  set ir := leBytes 4 (args.initial_reward % 2 ^ 32).toNat with hird
  set tap := leBytes 4 (args.total_accumulation_period % 2 ^ 32).toNat with htapd
  set gd := leBytes 4 (args.generation_duration % 2 ^ 32).toNat with hgdd
  refine ⟨0 :: (cf ++ ar ++ ir ++ tap ++ gd), ?_, ?_⟩
  · simp [setConfigData, hcf, har, hir, htap, hgd]
  · have lcf : cf.length = 4 := leBytes_length _ _
    have lar : ar.length = 4 := leBytes_length _ _
    have lir : ir.length = 4 := leBytes_length _ _
    have ltap : tap.length = 4 := leBytes_length _ _
    have lgd : gd.length = 4 := leBytes_length _ _
    have hs1 : sliceB (auth ++ creator ++ (cf ++ ar ++ ir ++ tap ++ gd)) 0 32 = auth := by
      have h := sliceB_spot [] auth (creator ++ (cf ++ ar ++ ir ++ tap ++ gd))
      simpa [ha] using h
    have hs2 : sliceB (auth ++ creator ++ (cf ++ ar ++ ir ++ tap ++ gd)) 32 64 = creator := by
      have h := sliceB_spot auth creator (cf ++ ar ++ ir ++ tap ++ gd)
      simpa [ha, hc] using h
    have h64 : readInt32LE (auth ++ creator ++ (cf ++ ar ++ ir ++ tap ++ gd)) 64 =
        some args.claimable_from :=
      readInt32LE_at (auth ++ creator) (ar ++ ir ++ tap ++ gd) (by simp [hcfd]) (by simp [ha, hc]) h1.1 h1.2
    have h68 : readInt32LE (auth ++ creator ++ (cf ++ ar ++ ir ++ tap ++ gd)) 68 =
        some args.accumulated_reward :=
      readInt32LE_at (auth ++ creator ++ cf) (ir ++ tap ++ gd) (by simp [hard])
        (by simp [ha, hc, lcf]) h2.1 h2.2
    have h72 : readInt32LE (auth ++ creator ++ (cf ++ ar ++ ir ++ tap ++ gd)) 72 =
        some args.initial_reward :=
      readInt32LE_at (auth ++ creator ++ cf ++ ar) (tap ++ gd) (by simp [hird])
        (by simp [ha, hc, lcf, lar]) h3.1 h3.2
    have h76 : readInt32LE (auth ++ creator ++ (cf ++ ar ++ ir ++ tap ++ gd)) 76 =
        some args.total_accumulation_period :=
      readInt32LE_at (auth ++ creator ++ cf ++ ar ++ ir) gd (by simp [htapd])
        (by simp [ha, hc, lcf, lar, lir]) h4.1 h4.2
    have h80 : readInt32LE (auth ++ creator ++ (cf ++ ar ++ ir ++ tap ++ gd)) 80 =
        some args.generation_duration :=
      readInt32LE_at (auth ++ creator ++ cf ++ ar ++ ir ++ tap) [] (by simp [hgdd])
        (by simp [ha, hc, lcf, lar, lir, ltap]) h5.1 h5.2
    simp only [List.append_assoc] at hs1 hs2 h64 h68 h72 h76 h80
    simp [parseConfigData, List.drop, hs1, hs2, h64, h68, h72, h76, h80,
      mkPublicKey_of_length ha, mkPublicKey_of_length hc]

theorem nft_roundtrip (r : NftRecord)
    (h1 : inI32 r.claimed_amount) (h2 : inI32 r.total_amount)
    (h3 : inI32 r.last_claimed_at) :
    ∃ bytes, encodeNftRecord r = some bytes ∧ parseNftData bytes = some r := by
  have hca := writeInt32LE_some h1.1 h1.2
  have hta := writeInt32LE_some h2.1 h2.2
  have hlc := writeInt32LE_some h3.1 h3.2
  set ca := leBytes 4 (r.claimed_amount % 2 ^ 32).toNat with hcad
  set ta := leBytes 4 (r.total_amount % 2 ^ 32).toNat with htad
  set lc := leBytes 4 (r.last_claimed_at % 2 ^ 32).toNat with hlcd
  have lca : ca.length = 4 := leBytes_length _ _
  have lta : ta.length = 4 := leBytes_length _ _
  refine ⟨ca ++ ta ++ lc, by simp [encodeNftRecord, hca, hta, hlc], ?_⟩
  have h0 : readInt32LE (ca ++ ta ++ lc) 0 = some r.claimed_amount :=
    readInt32LE_at [] (ta ++ lc) (by simp [hcad]) (by simp) h1.1 h1.2
  have h4 : readInt32LE (ca ++ ta ++ lc) 4 = some r.total_amount :=
    readInt32LE_at ca lc (by simp [htad]) (by simp [lca]) h2.1 h2.2
  have h8 : readInt32LE (ca ++ ta ++ lc) 8 = some r.last_claimed_at :=
    readInt32LE_at (ca ++ ta) [] (by simp [hlcd]) (by simp [lca, lta]) h3.1 h3.2
  simp only [List.append_assoc] at h0 h4 h8
  simp [parseNftData, h0, h4, h8]

theorem claim_roundtrip (r : ClaimRecord)
    (h1 : inI32 r.generation) (h2 : inI32 r.amount)
    (ho : r.owner.length = 32)
    (hx : r.bnb_chain_wallet_address.take 2 = [48, 120])
    (hb : ∀ b ∈ r.bnb_chain_wallet_address, b < 256) :
    ∃ bytes, encodeClaimRecord r = some bytes ∧ parseClaimData bytes = some r := by
  have hgen := writeInt32LE_some h1.1 h1.2
  have hamt := writeInt32LE_some h2.1 h2.2
  set gen := leBytes 4 (r.generation % 2 ^ 32).toNat with hgend
  set amt := leBytes 4 (r.amount % 2 ^ 32).toNat with hamtd
  have lgen : gen.length = 4 := leBytes_length _ _
  have lamt : amt.length = 4 := leBytes_length _ _
  have hw : (r.bnb_chain_wallet_address.drop 2).map (· % 256) =
      r.bnb_chain_wallet_address.drop 2 := by
    rw [show (fun x => x % 256) = fun x : Nat => (fun y : Nat => y % 256) x from rfl]
    calc (r.bnb_chain_wallet_address.drop 2).map (fun y : Nat => y % 256)
        = (r.bnb_chain_wallet_address.drop 2).map id :=
          List.map_congr_left fun b hbm =>
            Nat.mod_eq_of_lt (hb b (List.drop_subset 2 _ hbm))
      _ = r.bnb_chain_wallet_address.drop 2 := List.map_id _
  refine ⟨gen ++ amt ++ r.owner ++ r.bnb_chain_wallet_address.drop 2,
    by simp [encodeClaimRecord, hgen, hamt, hw], ?_⟩
  set w := r.bnb_chain_wallet_address.drop 2 with hwd
  have h0 : readInt32LE (gen ++ amt ++ r.owner ++ w) 0 = some r.generation :=
    readInt32LE_at [] (amt ++ r.owner ++ w) (by simp [hgend]) (by simp) h1.1 h1.2
  have h4 : readInt32LE (gen ++ amt ++ r.owner ++ w) 4 = some r.amount :=
    readInt32LE_at gen (r.owner ++ w) (by simp [hamtd]) (by simp [lgen]) h2.1 h2.2
  have hsl : sliceB (gen ++ amt ++ r.owner ++ w) 8 40 = r.owner := by
    have h := sliceB_spot (gen ++ amt) r.owner w
    simpa [lgen, lamt, ho] using h
  have hdr : (gen ++ amt ++ r.owner ++ w).drop 40 = w := by
    have h := drop_spot (gen ++ amt ++ r.owner) w
    simpa [lgen, lamt, ho] using h
  have hbn : [48, 120] ++ w = r.bnb_chain_wallet_address := by
    rw [hwd, ← hx, List.take_append_drop]
  simp only [List.append_assoc] at h0 h4 hsl hdr
  simp [parseClaimData, h0, h4, hsl, hdr, mkPublicKey_of_length ho, hbn]

theorem parseTokenRecordFrom_none (front : List Nat) (state : Int) (post : List Nat) :
    parseTokenRecordFrom (front ++ [0] ++ post) front.length state =
      some ⟨state, none, none⟩ := by
  have hp : readInt8 (front ++ [0] ++ post) front.length = some 0 :=
    readInt8_at front post (by norm_num) rfl (by norm_num) (by norm_num)
  simp only [List.append_assoc, List.singleton_append] at hp
  simp [parseTokenRecordFrom, hp]

theorem parseTokenRecordFrom_some (front d post : List Nat) (state role : Int)
    (hd : d.length = 32) (h1 : -128 ≤ role) (h2 : role < 128) :
    parseTokenRecordFrom (front ++ [1] ++ d ++ [1] ++ [(role % 256).toNat] ++ post)
      front.length state = some ⟨state, some d, some role⟩ := by
  have hp : readInt8 (front ++ [1] ++ d ++ [1] ++ [(role % 256).toNat] ++ post)
      front.length = some 1 :=
    readInt8_at front (d ++ [1] ++ [(role % 256).toNat] ++ post)
      (by norm_num) rfl (by norm_num) (by norm_num)
  have hro : readInt8 (front ++ [1] ++ d ++ [1] ++ [(role % 256).toNat] ++ post)
      (front.length + 34) = some role :=
    readInt8_at (front ++ [1] ++ d ++ [1]) post (by simp) (by simp [hd]) h1 h2
  have hsl : sliceB (front ++ [1] ++ d ++ [1] ++ [(role % 256).toNat] ++ post)
      (front.length + 1) (front.length + 33) = d := by
    have h := sliceB_spot (front ++ [1]) d ([1] ++ [(role % 256).toNat] ++ post)
    simpa [hd, Nat.add_assoc] using h
  simp only [List.append_assoc, List.cons_append, List.singleton_append,
    List.nil_append] at hp hro hsl
  simp [parseTokenRecordFrom, hp, hro, hsl]

theorem tokenrecord_roundtrip (b0 b1 : Nat) (rulesetRev : Option (List Nat))
    (r : TokenRecord) (hs1 : -128 ≤ r.state) (hs2 : r.state < 128)
    (hrv : rulesetRev = none ∨ ∃ rv, rulesetRev = some rv ∧ rv.length = 8)
    (hdel : (r.delegate = none ∧ r.delegateRole = none) ∨
      ∃ d role, r.delegate = some d ∧ r.delegateRole = some role ∧
        d.length = 32 ∧ -128 ≤ role ∧ role < 128) :
    ∃ bytes, encodeTokenRecord b0 b1 rulesetRev r = some bytes ∧
      parseTokenRecordData bytes = some r := by
  obtain ⟨rs, rd, rr⟩ := r
  simp only at hs1 hs2 hdel
  have hstw := writeInt8_some hs1 hs2
  rcases hrv with hrv | ⟨rv, hrv, hrvlen⟩ <;>
    rcases hdel with ⟨hd, hr⟩ | ⟨d, role, hd, hr, hdlen, hro1, hro2⟩ <;>
    subst hrv <;> subst hd <;> subst hr
  · -- no ruleset revision, no delegate
    refine ⟨[b0, b1, (rs % 256).toNat, 0, 0], by simp [encodeTokenRecord, hstw], ?_⟩
    have hstate : readInt8 [b0, b1, (rs % 256).toNat, 0, 0] 2 = some rs :=
      readInt8_at [b0, b1] [0, 0] rfl rfl hs1 hs2
    have hdisc : readInt8 [b0, b1, (rs % 256).toNat, 0, 0] 3 = some 0 :=
      readInt8_at [b0, b1, (rs % 256).toNat] [0] (by norm_num) rfl
        (by norm_num) (by norm_num)
    have hfrom := parseTokenRecordFrom_none [b0, b1, (rs % 256).toNat, 0] rs []
    simp only [List.append_assoc, List.cons_append, List.singleton_append,
      List.nil_append, List.append_nil, List.length_cons, List.length_nil] at hfrom
    simp [parseTokenRecordData, hstate, hdisc, hfrom]
  · -- no ruleset revision, delegate present
    have hrow := writeInt8_some hro1 hro2
    refine ⟨b0 :: b1 :: (rs % 256).toNat :: 0 :: 1 :: (d ++ [1, (role % 256).toNat]),
      by simp [encodeTokenRecord, hstw, hrow], ?_⟩
    have hstate : readInt8
        (b0 :: b1 :: (rs % 256).toNat :: 0 :: 1 :: (d ++ [1, (role % 256).toNat])) 2 =
        some rs :=
      readInt8_at [b0, b1] (0 :: 1 :: (d ++ [1, (role % 256).toNat])) rfl rfl hs1 hs2
    have hdisc : readInt8
        (b0 :: b1 :: (rs % 256).toNat :: 0 :: 1 :: (d ++ [1, (role % 256).toNat])) 3 =
        some 0 :=
      readInt8_at [b0, b1, (rs % 256).toNat] (1 :: (d ++ [1, (role % 256).toNat]))
        (by norm_num) rfl (by norm_num) (by norm_num)
    have hfrom := parseTokenRecordFrom_some [b0, b1, (rs % 256).toNat, 0] d [] rs role
      hdlen hro1 hro2
    simp only [List.append_assoc, List.cons_append, List.singleton_append,
      List.nil_append, List.append_nil, List.length_cons, List.length_nil] at hfrom
    simp [parseTokenRecordData, hstate, hdisc, hfrom]
  · -- ruleset revision present, no delegate
    refine ⟨b0 :: b1 :: (rs % 256).toNat :: 1 :: (rv ++ [0]),
      by simp [encodeTokenRecord, hstw], ?_⟩
    have hstate : readInt8 (b0 :: b1 :: (rs % 256).toNat :: 1 :: (rv ++ [0])) 2 =
        some rs :=
      readInt8_at [b0, b1] (1 :: (rv ++ [0])) rfl rfl hs1 hs2
    have hdisc : readInt8 (b0 :: b1 :: (rs % 256).toNat :: 1 :: (rv ++ [0])) 3 =
        some 1 :=
      readInt8_at [b0, b1, (rs % 256).toNat] (rv ++ [0]) (by norm_num) rfl
        (by norm_num) (by norm_num)
    have hfrom := parseTokenRecordFrom_none ([b0, b1, (rs % 256).toNat, 1] ++ rv) rs []
    simp only [List.append_assoc, List.cons_append, List.singleton_append,
      List.nil_append, List.append_nil, List.length_append, List.length_cons,
      List.length_nil, hrvlen] at hfrom
    simp [parseTokenRecordData, hstate, hdisc, hfrom]
  · -- ruleset revision present, delegate present
    have hrow := writeInt8_some hro1 hro2
    refine ⟨b0 :: b1 :: (rs % 256).toNat :: 1 ::
        (rv ++ 1 :: (d ++ [1, (role % 256).toNat])),
      by simp [encodeTokenRecord, hstw, hrow], ?_⟩
    have hstate : readInt8 (b0 :: b1 :: (rs % 256).toNat :: 1 ::
        (rv ++ 1 :: (d ++ [1, (role % 256).toNat]))) 2 = some rs :=
      readInt8_at [b0, b1] (1 :: (rv ++ 1 :: (d ++ [1, (role % 256).toNat]))) rfl rfl
        hs1 hs2
    have hdisc : readInt8 (b0 :: b1 :: (rs % 256).toNat :: 1 ::
        (rv ++ 1 :: (d ++ [1, (role % 256).toNat]))) 3 = some 1 :=
      readInt8_at [b0, b1, (rs % 256).toNat] (rv ++ 1 :: (d ++ [1, (role % 256).toNat]))
        (by norm_num) rfl (by norm_num) (by norm_num)
    have hfrom := parseTokenRecordFrom_some ([b0, b1, (rs % 256).toNat, 1] ++ rv) d []
      rs role hdlen hro1 hro2
    simp only [List.append_assoc, List.cons_append, List.singleton_append,
      List.nil_append, List.append_nil, List.length_append, List.length_cons,
      List.length_nil, hrvlen] at hfrom
    simp [parseTokenRecordData, hstate, hdisc, hfrom]

/-! ### Minimum-length decode failures -/

theorem parseConfig_short (data : List Nat) (h : data.length < 84) :
    parseConfigData data = none := by
  have h80 : readInt32LE data 80 = none := by
    unfold readInt32LE readUIntLE bytesAt
    rw [if_neg (by omega)]
    rfl
  simp [parseConfigData, h80]

theorem parseNft_short (data : List Nat) (h : data.length < 12) :
    parseNftData data = none := by
  have h8 : readInt32LE data 8 = none := by
    unfold readInt32LE readUIntLE bytesAt
    rw [if_neg (by omega)]
    rfl
  simp [parseNftData, h8]

theorem parseClaim_short (data : List Nat) (h : data.length < 40) :
    parseClaimData data = none := by
  have how : mkPublicKey (sliceB data 8 40) = none := by
    unfold mkPublicKey
    rw [if_neg]
    simp only [sliceB, List.length_drop, List.length_take]
    omega
  simp [parseClaimData, how]

theorem parseTokenRecord_short (data : List Nat) (h : data.length < 5) :
    parseTokenRecordData data = none := by
  have h4 : readInt8 data 4 = none := by
    unfold readInt8 readUIntLE bytesAt
    rw [if_neg (by omega)]
    rfl
  have h12 : readInt8 data 12 = none := by
    unfold readInt8 readUIntLE bytesAt
    rw [if_neg (by omega)]
    rfl
  unfold parseTokenRecordData
  cases hstate : readInt8 data 2 with
  | none => simp
  | some st =>
    cases hdisc : readInt8 data 3 with
    | none => simp
    | some dc =>
      unfold parseTokenRecordFrom
      by_cases hdc : dc = 0
      · simp [hdc, h4]
      · simp [hdc, h12]

/-! ### Chunking lemmas -/

theorem chunksOf_nil {α : Type} (c : Nat) : chunksOf c ([] : List α) = [] := by
  simp [chunksOf]

theorem chunksOf_cons {α : Type} (c : Nat) (x : α) (xs : List α) :
    chunksOf c (x :: xs) =
      (x :: xs.take (c - 1)) :: chunksOf c (xs.drop (c - 1)) := by
  simp [chunksOf]

theorem chunksOf_eq_cons {α : Type} (c : Nat) (xs : List α) (hc : 1 ≤ c)
    (hxs : xs ≠ []) :
    chunksOf c xs = xs.take c :: chunksOf c (xs.drop c) := by
  obtain ⟨k, rfl⟩ : ∃ k, c = k + 1 := ⟨c - 1, by omega⟩
  cases xs with
  | nil => exact absurd rfl hxs
  | cons x xs => simp [chunksOf_cons]

theorem jsSlice_nat {α : Type} (xs : List α) (j c : Nat) (hj : j ≤ xs.length) :
    jsSlice xs (j : Int) ((j + c : Nat) : Int) = (xs.drop j).take c := by
  unfold jsSlice jsIndex
  rw [if_neg (by omega), if_neg (by omega), Int.toNat_natCast, Int.toNat_natCast,
    min_eq_left hj]
  rcases le_or_lt (j + c) xs.length with hle | hlt
  · rw [min_eq_left hle, List.drop_take]
    congr 1
    omega
  · rw [min_eq_right hlt.le, List.take_length]
    exact (List.take_of_length_le (by simp [List.length_drop]; omega)).symm

theorem concurrentClaimGo_spec {α : Type} (mints : List α) (c : Nat) (hc : 1 ≤ c) :
    ∀ fuel j, mints.length ≤ j + fuel →
      concurrentClaimGo mints (c : Int) fuel (j : Int) =
        some (chunksOf c (mints.drop j)) := by
  intro fuel
  induction fuel with
  | zero =>
    intro j hj
    unfold concurrentClaimGo
    rw [if_neg (by omega), List.drop_eq_nil_of_le (by omega), chunksOf_nil]
  | succ fuel ih =>
    intro j hj
    unfold concurrentClaimGo
    by_cases hjl : j < mints.length
    · rw [if_pos (by omega),
        show (j : Int) + (c : Int) = ((j + c : Nat) : Int) by push_cast; ring,
        ih (j + c) (by omega), jsSlice_nat mints j c hjl.le, Option.map_some']
      congr 1
      rw [chunksOf_eq_cons c (mints.drop j) hc
        (by rw [ne_eq, List.drop_eq_nil_iff]; omega)]
      congr 1
      rw [List.drop_drop]
    · rw [if_neg (by omega), List.drop_eq_nil_of_le (by omega), chunksOf_nil]

theorem concurrentClaim_eq_chunksOf {α : Type} (mints : List α) (c : Int)
    (hc : 1 ≤ c) :
    concurrentClaim mints c = some (chunksOf c.toNat mints) := by
  have h1 : ((c.toNat : Nat) : Int) = c := Int.toNat_of_nonneg (by omega)
  have h := concurrentClaimGo_spec mints c.toNat (by omega) (mints.length + 1) 0
    (by omega)
  unfold concurrentClaim
  simpa [h1] using h

theorem concurrentClaimGo_nonpos {α : Type} (mints : List α) (c : Int)
    (hc : c ≤ 0) :
    ∀ fuel (i : Int), i < mints.length → concurrentClaimGo mints c fuel i = none := by
  intro fuel
  induction fuel with
  | zero =>
    intro i hi
    unfold concurrentClaimGo
    rw [if_pos hi]
  | succ fuel ih =>
    intro i hi
    unfold concurrentClaimGo
    rw [if_pos hi, ih (i + c) (by omega)]
    rfl

theorem chunksOf_flatten {α : Type} (c : Nat) :
    ∀ xs : List α, (chunksOf c xs).flatten = xs
  | [] => by simp [chunksOf_nil]
  | x :: xs => by
    rw [chunksOf_cons]
    simp only [List.flatten_cons, List.cons_append]
    rw [chunksOf_flatten c (xs.drop (c - 1)), List.take_append_drop]
termination_by xs => xs.length
decreasing_by
  simp only [List.length_drop, List.length_cons]
  omega

theorem chunksOf_length_le {α : Type} (c : Nat) (hc : 1 ≤ c) :
    ∀ xs : List α, ∀ ch ∈ chunksOf c xs, ch.length ≤ c
  | [] => by simp [chunksOf_nil]
  | x :: xs => by
    intro ch hch
    rw [chunksOf_cons] at hch
    rcases List.mem_cons.mp hch with rfl | hch
    · simp only [List.length_cons, List.length_take]
      omega
    · exact chunksOf_length_le c hc (xs.drop (c - 1)) ch hch
termination_by xs => xs.length
decreasing_by
  simp only [List.length_drop, List.length_cons]
  omega

theorem chunksOf_dropLast_length {α : Type} (c : Nat) (hc : 1 ≤ c) :
    ∀ xs : List α, ∀ ch ∈ (chunksOf c xs).dropLast, ch.length = c
  | [] => by simp [chunksOf_nil]
  | x :: xs => by
    intro ch hch
    rw [chunksOf_cons] at hch
    by_cases hnil : chunksOf c (xs.drop (c - 1)) = []
    · rw [hnil] at hch
      simp at hch
    · rw [List.dropLast_cons_of_ne_nil hnil] at hch
      rcases List.mem_cons.mp hch with rfl | hch
      · have hne : xs.drop (c - 1) ≠ [] := by
          intro hdrop
          rw [hdrop, chunksOf_nil] at hnil
          exact hnil rfl
        rw [ne_eq, List.drop_eq_nil_iff] at hne
        simp only [List.length_cons, List.length_take]
        omega
      · exact chunksOf_dropLast_length c hc (xs.drop (c - 1)) ch hch
termination_by xs => xs.length
decreasing_by
  simp only [List.length_drop, List.length_cons]
  omega

theorem chunksOf_count {α : Type} (c : Nat) (hc : 1 ≤ c) :
    ∀ xs : List α, (chunksOf c xs).length = (xs.length + c - 1) / c
  | [] => by
    rw [chunksOf_nil]
    simp only [List.length_nil]
    rw [Nat.div_eq_of_lt (by omega)]
  | x :: xs => by
    rw [chunksOf_cons]
    simp only [List.length_cons]
    rw [chunksOf_count c hc (xs.drop (c - 1))]
    simp only [List.length_drop]
    rcases le_or_lt (c - 1) xs.length with hle | hlt
    · rw [show xs.length - (c - 1) + c - 1 = xs.length by omega,
        show xs.length + 1 + c - 1 = xs.length + c by omega,
        Nat.add_div_right _ (by omega : 0 < c)]
    · rw [show xs.length - (c - 1) + c - 1 = c - 1 by omega,
        Nat.div_eq_of_lt (by omega),
        show xs.length + 1 + c - 1 = xs.length + c by omega,
        Nat.add_div_right _ (by omega : 0 < c),
        Nat.div_eq_of_lt (by omega)]
termination_by xs => xs.length
decreasing_by
  simp only [List.length_drop, List.length_cons]
  omega

/-! ### Claim theorems -/

/-- C1: for every fee payer, wallet string, and non-empty list of N
mints, `claimReward` assembles exactly one create-claim instruction
(position 0), followed by N register-stake-record instructions (one per
mint, in input order, positions 1..N), followed by N execute-claim
instructions (one per mint, in input order, positions N+1..2N); the one
`claim_seed` nonce is passed to the create-claim builder and to every
execute-claim builder, so every execute-claim instruction's claim
account (key 4) equals the create-claim instruction's claim account
(key 1). -/
theorem C1_claimReward_composite (fpa : Fpa) (payer bnbWallet claim_seed : List Nat)
    (mints : List (List Nat)) (_hne : mints ≠ []) :
    (claimRewardInstructions fpa payer mints bnbWallet claim_seed).length =
        1 + mints.length + mints.length ∧
      (claimRewardInstructions fpa payer mints bnbWallet claim_seed)[0]? =
        some (createClaimInstruction fpa payer bnbWallet claim_seed) ∧
      (∀ i, i < mints.length →
        (claimRewardInstructions fpa payer mints bnbWallet claim_seed)[1 + i]? =
          mints[i]?.map (registerNftInstruction fpa payer)) ∧
      (∀ i, i < mints.length →
        (claimRewardInstructions fpa payer mints bnbWallet claim_seed)[1 + mints.length + i]? =
          mints[i]?.map fun mint => claimInstruction fpa payer mint claim_seed) ∧
      ∀ mint,
        ((claimInstruction fpa payer mint claim_seed).keys[4]?).map AccountMeta.pubkey =
          ((createClaimInstruction fpa payer bnbWallet claim_seed).keys[1]?).map
            AccountMeta.pubkey := by
  refine ⟨?_, by simp [claimRewardInstructions], ?_, ?_, fun mint => rfl⟩
  · simp only [claimRewardInstructions, List.length_cons, List.length_append,
      List.length_map]
    omega
  · intro i hi
    unfold claimRewardInstructions
    rw [show 1 + i = i + 1 by omega, List.getElem?_cons_succ, List.getElem?_append,
      if_pos (by simp [hi]), List.getElem?_map]
  · intro i hi
    unfold claimRewardInstructions
    rw [show 1 + mints.length + i = (mints.length + i) + 1 by omega,
      List.getElem?_cons_succ,
      List.getElem?_append_right (by simp), List.getElem?_map]
    congr 1
    simp

/-- C1 witness: the composite build at a concrete derivation oracle,
payer, wallet string, seed, and two mints. -/
theorem C1_witness :
    (claimRewardInstructions (fun _ pid => (pid, 255)) (List.replicate 32 1)
        [List.replicate 32 2, List.replicate 32 3] (strBytes "0xAB")
        (List.replicate 32 7)).length = 5 :=
  (C1_claimReward_composite (fun _ pid => (pid, 255)) (List.replicate 32 1)
    (strBytes "0xAB") (List.replicate 32 7)
    [List.replicate 32 2, List.replicate 32 3] (by decide)).1

/-- C2: decode-after-encode is the identity for every record kind, for
fields in the representable (signed) range of their fixed widths: the
`setConfigInstruction` payload decoded through the `parseConfig` account
layout (the payload's five integers land at account offsets 64..80
behind the two 32-byte addresses); NFT, Claim and TokenDelegation
records through the spec-modelled account encoders; and the claim
record's `0x`-prefixed wallet string survives the strip/re-prepend
round trip. -/
theorem C2_codec_roundtrip :
    (∀ (auth creator : List Nat) (args : ConfigArgs),
      auth.length = 32 → creator.length = 32 →
      inI32 args.claimable_from → inI32 args.accumulated_reward →
      inI32 args.initial_reward → inI32 args.total_accumulation_period →
      inI32 args.generation_duration →
      ∃ payload, setConfigData args = some payload ∧
        parseConfigData (auth ++ creator ++ payload.drop 1) =
          some ⟨auth, creator, args.claimable_from, args.accumulated_reward,
            args.initial_reward, args.total_accumulation_period,
            args.generation_duration⟩) ∧
    (∀ r : NftRecord, inI32 r.claimed_amount → inI32 r.total_amount →
      inI32 r.last_claimed_at →
      ∃ bytes, encodeNftRecord r = some bytes ∧ parseNftData bytes = some r) ∧
    (∀ r : ClaimRecord, inI32 r.generation → inI32 r.amount →
      r.owner.length = 32 → r.bnb_chain_wallet_address.take 2 = [48, 120] →
      (∀ b ∈ r.bnb_chain_wallet_address, b < 256) →
      ∃ bytes, encodeClaimRecord r = some bytes ∧ parseClaimData bytes = some r) ∧
    (∀ (b0 b1 : Nat) (rulesetRev : Option (List Nat)) (r : TokenRecord),
      -128 ≤ r.state → r.state < 128 →
      (rulesetRev = none ∨ ∃ rv, rulesetRev = some rv ∧ rv.length = 8) →
      ((r.delegate = none ∧ r.delegateRole = none) ∨
        ∃ d role, r.delegate = some d ∧ r.delegateRole = some role ∧
          d.length = 32 ∧ -128 ≤ role ∧ role < 128) →
      ∃ bytes, encodeTokenRecord b0 b1 rulesetRev r = some bytes ∧
        parseTokenRecordData bytes = some r) :=
  ⟨fun auth creator args ha hc h1 h2 h3 h4 h5 =>
      config_roundtrip auth creator args ha hc h1 h2 h3 h4 h5,
    fun r h1 h2 h3 => nft_roundtrip r h1 h2 h3,
    fun r h1 h2 ho hx hb => claim_roundtrip r h1 h2 ho hx hb,
    fun b0 b1 rulesetRev r hs1 hs2 hrv hdel =>
      tokenrecord_roundtrip b0 b1 rulesetRev r hs1 hs2 hrv hdel⟩

/-- C2 witness: each round trip at concrete boundary-exercising values —
the spec's release Config (claimable_from 1711447200 etc.), an NFT
record with the maximum Int32 value, a claim record with a `0x`-prefixed
wallet string, and a locked token record with delegate role 3. -/
theorem C2_witness :
    (∃ payload, setConfigData ⟨1711447200, 3282800, 820700, 25920000, 3600⟩ =
        some payload ∧
      parseConfigData (List.replicate 32 5 ++ List.replicate 32 6 ++ payload.drop 1) =
        some ⟨List.replicate 32 5, List.replicate 32 6, 1711447200, 3282800, 820700,
          25920000, 3600⟩) ∧
    (∃ bytes, encodeNftRecord ⟨0, 2147483647, -1⟩ = some bytes ∧
      parseNftData bytes = some ⟨0, 2147483647, -1⟩) ∧
    (∃ bytes, encodeClaimRecord ⟨12, 34, List.replicate 32 8, strBytes "0xAB"⟩ =
        some bytes ∧
      parseClaimData bytes = some ⟨12, 34, List.replicate 32 8, strBytes "0xAB"⟩) ∧
    (∃ bytes, encodeTokenRecord 4 0 none ⟨1, some (List.replicate 32 9), some 3⟩ =
        some bytes ∧
      parseTokenRecordData bytes = some ⟨1, some (List.replicate 32 9), some 3⟩) :=
  ⟨C2_codec_roundtrip.1 (List.replicate 32 5) (List.replicate 32 6)
      ⟨1711447200, 3282800, 820700, 25920000, 3600⟩ (by decide) (by decide)
      (by decide) (by decide) (by decide) (by decide) (by decide),
    C2_codec_roundtrip.2.1 ⟨0, 2147483647, -1⟩ (by decide) (by decide) (by decide),
    C2_codec_roundtrip.2.2.1 ⟨12, 34, List.replicate 32 8, strBytes "0xAB"⟩
      (by decide) (by decide) (by decide) (by decide) (by decide),
    C2_codec_roundtrip.2.2.2 4 0 none ⟨1, some (List.replicate 32 9), some 3⟩
      (by decide) (by decide) (Or.inl rfl)
      (Or.inr ⟨List.replicate 32 9, 3, rfl, rfl, by decide, by decide, by decide⟩)⟩

/-- C3 counterexample: the claim says 80 bytes is the ConfigRecord
minimum length, but an 80-byte buffer already fails to decode (the
generation-duration read at offset 80 needs bytes up to 83) while an
84-byte buffer decodes; the minimum is 84, not 80. -/
theorem C3_counterexample :
    parseConfigData (List.replicate 80 0) = none ∧
      (parseConfigData (List.replicate 84 0)).isSome = true := by
  decide

/-- C3 (amended): decoding any buffer shorter than the record kind's
minimum length fails (Config 84 bytes, Claim 40, NFT 12, TokenDelegation
5); in particular a 79-byte Config buffer fails, because 84 — not 80 —
bytes is the ConfigRecord minimum length (each minimum-length all-zero
buffer decodes). -/
theorem C3_short_decode_fails :
    (∀ data : List Nat, data.length < 84 → parseConfigData data = none) ∧
    (∀ data : List Nat, data.length < 40 → parseClaimData data = none) ∧
    (∀ data : List Nat, data.length < 12 → parseNftData data = none) ∧
    (∀ data : List Nat, data.length < 5 → parseTokenRecordData data = none) ∧
    parseConfigData (List.replicate 79 0) = none ∧
    (parseConfigData (List.replicate 84 0)).isSome = true ∧
    (parseClaimData (List.replicate 40 0)).isSome = true ∧
    (parseNftData (List.replicate 12 0)).isSome = true ∧
    (parseTokenRecordData (List.replicate 5 0)).isSome = true :=
  ⟨parseConfig_short, parseClaim_short, parseNft_short, parseTokenRecord_short,
    by decide, by decide, by decide, by decide, by decide⟩

/-- C3 witness: the short-buffer failures at concrete lengths. -/
theorem C3_witness :
    parseConfigData (List.replicate 20 0) = none ∧
      parseClaimData (List.replicate 8 0) = none ∧
      parseNftData (List.replicate 3 0) = none ∧
      parseTokenRecordData (List.replicate 2 0) = none :=
  ⟨C3_short_decode_fails.1 (List.replicate 20 0) (by decide),
    C3_short_decode_fails.2.1 (List.replicate 8 0) (by decide),
    C3_short_decode_fails.2.2.1 (List.replicate 3 0) (by decide),
    C3_short_decode_fails.2.2.2.1 (List.replicate 2 0) (by decide)⟩

/-- C4: `parseTokenRecord` reads the state at offset 2; when the 1-byte
discriminant at offset 3 is zero it continues at offset 4 (skip 1) and
when non-zero at offset 12 (skip 9); and the concrete buffer with
state 1, no ruleset revision, and a present delegate with role byte 3
decodes to state Locked, the 32-byte delegate at offset 5, and role
Staking. -/
theorem C4_tokenrecord_skip :
    (∀ (data : List Nat) (st disc : Int), readInt8 data 2 = some st →
      readInt8 data 3 = some disc → disc = 0 →
      parseTokenRecordData data = parseTokenRecordFrom data 4 st) ∧
    (∀ (data : List Nat) (st disc : Int), readInt8 data 2 = some st →
      readInt8 data 3 = some disc → disc ≠ 0 →
      parseTokenRecordData data = parseTokenRecordFrom data 12 st) ∧
    parseTokenRecordData ([4, 0, 1, 0, 1] ++ List.replicate 32 7 ++ [1, 3]) =
      some ⟨TokenRecordState.Locked, some (List.replicate 32 7),
        some DelegateRole.Staking⟩ := by
  refine ⟨?_, ?_, by decide⟩
  · intro data st disc h2 h3 hz
    simp [parseTokenRecordData, h2, h3, hz]
  · intro data st disc h2 h3 hz
    simp [parseTokenRecordData, h2, h3, hz]

/-- C4 witness: the zero-discriminant dispatch at a concrete buffer. -/
theorem C4_witness :
    parseTokenRecordData ([4, 0, 1, 0, 0] : List Nat) =
      parseTokenRecordFrom [4, 0, 1, 0, 0] 4 1 :=
  C4_tokenrecord_skip.1 [4, 0, 1, 0, 0] 1 0 (by decide) (by decide) rfl

/-- C5: each named derivation passes exactly its documented ordered
literal seed list: config = `"config"` alone (no variable component) on
the staking program; stake record = `"nft"`, mint; claim =
`"claim"`, wallet, nonce; metadata = `"metadata"`, metadata program id,
mint; master edition adds `"edition"`; token delegation record =
`"metadata"`, metadata program id, mint, `"token_record"`, token — all
byte-for-byte (the byte lists spelled out below are those ASCII
strings). -/
theorem C5_pda_seeds :
    (∀ fpa : Fpa, findConfigPda fpa =
      fpa [[99, 111, 110, 102, 105, 103]] GAIMIN_PFP) ∧
    (∀ (fpa : Fpa) (mint : List Nat), findNftPda fpa mint =
      fpa [[110, 102, 116], mint] GAIMIN_PFP) ∧
    (∀ (fpa : Fpa) (wallet seed : List Nat), findClaimPda fpa wallet seed =
      fpa [[99, 108, 97, 105, 109], wallet, seed] GAIMIN_PFP) ∧
    (∀ (fpa : Fpa) (mint : List Nat), findMetadataAccountPda fpa mint =
      fpa [[109, 101, 116, 97, 100, 97, 116, 97], MPL_TOKEN_METADATA, mint]
        MPL_TOKEN_METADATA) ∧
    (∀ (fpa : Fpa) (mint : List Nat), findMasterEditionAccountPda fpa mint =
      fpa [[109, 101, 116, 97, 100, 97, 116, 97], MPL_TOKEN_METADATA, mint,
          [101, 100, 105, 116, 105, 111, 110]] MPL_TOKEN_METADATA) ∧
    (∀ (fpa : Fpa) (mint token : List Nat), findTokenRecordPda fpa mint token =
      fpa [[109, 101, 116, 97, 100, 97, 116, 97], MPL_TOKEN_METADATA, mint,
          [116, 111, 107, 101, 110, 95, 114, 101, 99, 111, 114, 100], token]
        MPL_TOKEN_METADATA) :=
  ⟨fun _ => rfl, fun _ _ => rfl, fun _ _ _ => rfl, fun _ _ => rfl, fun _ _ => rfl,
    fun _ _ _ => rfl⟩

/-- C6: for every mint list and positive chunk size c, `concurrentClaim`
partitions the mints into consecutive chunks (each chunk handed to its
own `claim` call/transaction): every chunk before the last has exactly c
mints, every chunk has at most c, and the chunks concatenate in order
back to the original list; in particular 9 mints with chunk size 4 give
exactly the 3 chunks of sizes 4, 4, 1. -/
theorem C6_concurrentClaim_chunks :
    (∀ (α : Type) (mints : List α) (c : Int), 1 ≤ c →
      ∃ chunks, concurrentClaim mints c = some chunks ∧
        chunks.flatten = mints ∧
        (∀ ch ∈ chunks.dropLast, ch.length = c.toNat) ∧
        (∀ ch ∈ chunks, ch.length ≤ c.toNat)) ∧
    concurrentClaim ([0, 1, 2, 3, 4, 5, 6, 7, 8] : List Nat) 4 =
      some [[0, 1, 2, 3], [4, 5, 6, 7], [8]] := by
  constructor
  · intro α mints c hc
    exact ⟨chunksOf c.toNat mints, concurrentClaim_eq_chunksOf mints c hc,
      chunksOf_flatten c.toNat mints,
      chunksOf_dropLast_length c.toNat (by omega) mints,
      chunksOf_length_le c.toNat (by omega) mints⟩
  · decide

/-- C6 witness: the chunk partition at a concrete 3-element list with
chunk size 2. -/
theorem C6_witness :
    ∃ chunks, concurrentClaim ([10, 20, 30] : List Nat) 2 = some chunks ∧
      chunks.flatten = [10, 20, 30] ∧
      (∀ ch ∈ chunks.dropLast, ch.length = 2) ∧
      ∀ ch ∈ chunks, ch.length ≤ 2 :=
  C6_concurrentClaim_chunks.1 Nat [10, 20, 30] 2 (by decide)

/-- C7: derivation is deterministic — the spec-modelled bump-search
`derive` and the repository's `findClaimPda` depend on nothing but their
arguments: equal `(programId, seeds)` (resp. `(wallet, seed)`) inputs
give equal `(address, bump)` results. -/
theorem C7_derive_deterministic :
    (∀ (hash : List (List Nat) → List Nat) (isOnCurve : List Nat → Bool)
      (programId suffix : List Nat) (seeds : List (List Nat))
      (programId' : List Nat) (seeds' : List (List Nat)),
      programId = programId' → seeds = seeds' →
      findProgramAddressSpec hash isOnCurve programId suffix seeds =
        findProgramAddressSpec hash isOnCurve programId' suffix seeds') ∧
    (∀ (fpa : Fpa) (wallet seed wallet' seed' : List Nat),
      wallet = wallet' → seed = seed' →
      findClaimPda fpa wallet seed = findClaimPda fpa wallet' seed') := by
  constructor
  · intro hash isOnCurve pid sfx seeds pid' seeds' hp hs
    rw [hp, hs]
  · intro fpa w s w' s' hw hs
    rw [hw, hs]

/-- C7 witness: determinism at a concrete hash, curve test, program id
and seed list. -/
theorem C7_witness :
    findProgramAddressSpec (fun l => l.flatten) (fun _ => false) [1] [2] [[3]] =
      findProgramAddressSpec (fun l => l.flatten) (fun _ => false) [1] [2] [[3]] :=
  C7_derive_deterministic.1 (fun l => l.flatten) (fun _ => false) [1] [2] [[3]]
    [1] [[3]] rfl rfl

/-- C8: the legacy client's Config decoder (8-byte integer at 32, double
at 40, float at 48, 4-byte integer at 52) and the primary client's
(five 4-byte integers at 64..80 after two 32-byte addresses) disagree:
on this 84-byte buffer the legacy decoder reads claimable_from = 1 and
the primary decoder reads claimable_from = 2. -/
theorem C8_layouts_differ :
    ∃ data : List Nat,
      (parseConfigLegacyData data).map LegacyConfigRecord.claimable_from = some 1 ∧
        (parseConfigData data).map ConfigRecord.claimable_from = some 2 ∧
        (parseConfigLegacyData data).map LegacyConfigRecord.claimable_from ≠
          (parseConfigData data).map ConfigRecord.claimable_from :=
  ⟨List.replicate 32 0 ++ 1 :: List.replicate 31 0 ++ 2 :: List.replicate 19 0,
    by decide, by decide, by decide⟩

/-- C9: every successfully decoded TokenDelegationRecord has a delegate
role exactly when it has a delegate. -/
theorem C9_delegate_role_iff (data : List Nat) (rec : TokenRecord)
    (h : parseTokenRecordData data = some rec) :
    rec.delegate = none ↔ rec.delegateRole = none := by
  unfold parseTokenRecordData at h
  cases hs : readInt8 data 2 with
  | none => rw [hs] at h; simp at h
  | some st =>
    rw [hs] at h
    cases hd : readInt8 data 3 with
    | none => rw [hd] at h; simp at h
    | some disc =>
      rw [hd] at h
      simp only [Option.bind_eq_bind, Option.some_bind] at h
      unfold parseTokenRecordFrom at h
      cases hp : readInt8 data (if disc = 0 then 3 + 1 else 3 + 9) with
      | none => rw [hp] at h; simp at h
      | some present =>
        rw [hp] at h
        simp only [Option.bind_eq_bind, Option.some_bind] at h
        by_cases hpz : present = 0
        · rw [if_pos hpz] at h
          simp only [pure, Option.some.injEq] at h
          rw [← h]
          simp
        · rw [if_neg hpz] at h
          cases hr : readInt8 data ((if disc = 0 then 3 + 1 else 3 + 9) + 34) with
          | none => rw [hr] at h; simp at h
          | some role =>
            rw [hr] at h
            simp only [Option.bind_eq_bind, Option.some_bind, pure,
              Option.some.injEq] at h
            rw [← h]
            simp

/-- C9 witness: the invariant on a concretely decoded record with a
present delegate. -/
theorem C9_witness :
    ((⟨1, some (List.replicate 32 7), some 3⟩ : TokenRecord).delegate = none ↔
      (⟨1, some (List.replicate 32 7), some 3⟩ : TokenRecord).delegateRole = none) :=
  C9_delegate_role_iff ([4, 0, 1, 0, 1] ++ List.replicate 32 7 ++ [1, 3])
    ⟨1, some (List.replicate 32 7), some 3⟩ (by decide)

/-- C10: the chunk loop of `concurrentClaim` terminates for every mint
list exactly when the chunk size is at least 1 — a positive chunk size
yields a result (with exactly ⌈N / chunkSize⌉ chunks for N mints), and
for a non-empty mint list and chunk size ≤ 0 no amount of fuel makes the
loop finish. -/
theorem C10_chunk_loop_termination :
    (∀ (α : Type) (mints : List α) (c : Int), 1 ≤ c →
      ∃ chunks, concurrentClaim mints c = some chunks ∧
        chunks.length = (mints.length + c.toNat - 1) / c.toNat) ∧
    (∀ (α : Type) (mints : List α) (c : Int), mints ≠ [] → c ≤ 0 →
      ∀ fuel, concurrentClaimGo mints c fuel 0 = none) := by
  constructor
  · intro α mints c hc
    exact ⟨chunksOf c.toNat mints, concurrentClaim_eq_chunksOf mints c hc,
      chunksOf_count c.toNat (by omega) mints⟩
  · intro α mints c hne hc fuel
    apply concurrentClaimGo_nonpos mints c hc fuel 0
    cases mints with
    | nil => exact absurd rfl hne
    | cons x xs =>
      simp only [List.length_cons]
      omega

/-- C10 witness: 9 mints in chunks of 4 give ⌈9/4⌉ = 3 chunks; chunk
size 0 on a non-empty list never finishes (here at fuel 5). -/
theorem C10_witness :
    (∃ chunks, concurrentClaim ([0, 1, 2, 3, 4, 5, 6, 7, 8] : List Nat) 4 =
        some chunks ∧ chunks.length = 3) ∧
      concurrentClaimGo ([0] : List Nat) 0 5 0 = none :=
  ⟨C10_chunk_loop_termination.1 Nat [0, 1, 2, 3, 4, 5, 6, 7, 8] 4 (by decide),
    C10_chunk_loop_termination.2 Nat [0] 0 (by decide) (by decide) 5⟩

end Gaimin
